import Mathlib

/-!
Verification development for the object-tree diff engine of
`runscripts/debug/compare_pickles.py`: the recursive structural diff
(`diff_trees` with its comparators `compare_floats`, `compare_ndarrays`,
the truncation helper `elide`), the size profiler (`size_tree`) and the
attribute extractor (`all_vars`).

The Python values that the differ traverses are shallowly embedded as the
inductive type `Val` below.  Python floats are modelled as `PFloat`
(NaN / signed infinity / exact finite value as a rational); numpy arrays
as a shape, a dtype tag and a flat list of scalars; the two registered
`SPECIAL_OBJECTS` types (`scipy.interpolate.CubicSpline` and
`UnitStructArray`) as `Val.special` with an attribute association list;
every other registered leaf type (`unum.Unum`, `Bio.Seq.Seq`, sympy
expressions, ...) as the opaque `Val.leaf tag repr` compared by its tag
(its Python type) and repr string.  The `Repr` sentinel class of the
source is embedded twice: `Val.missing` is the `Repr("--")` padding
sentinel created by the differ itself, `Val.reprV s` is a general
`Repr(s)` value (e.g. the ones produced by `elide`); both have the same
Python type `Repr` and the differ treats them identically.
-/

/-- A Python float: NaN, a signed infinity, or an exact finite value
(modelled as a rational; `sys.float_info` granularity is abstracted). -/
inductive PFloat where
  | nan
  | inf (neg : Bool)
  | finite (q : ℚ)
deriving DecidableEq

/-- The numpy dtypes the model distinguishes: floating, integer, object. -/
inductive DType where
  | f64
  | i64
  | obj
deriving DecidableEq

/-- A numpy ndarray: shape tuple, dtype, and the flat element buffer. -/
structure NDArray where
  shape : List Nat
  dtype : DType
  data : List PFloat
deriving DecidableEq

/-- The two registered `SPECIAL_OBJECTS` types of the source. -/
inductive SKind where
  | cubicSpline
  | unitStructArray
deriving DecidableEq

/-- `SPECIAL_OBJECTS[type]`: the declared attribute list of each special
type (`CubicSpline: ["x", "c", "axis"]`,
`UnitStructArray: ["struct_array", "units"]`). -/
def SKind.attrs : SKind → List String
  | .cubicSpline => ["x", "c", "axis"]
  | .unitStructArray => ["struct_array", "units"]

/-- The universe of (materialized) Python values the diff engine
traverses.  Mappings are Python dicts with string keys, sequences are
Python lists; `missing` and `reprV` are both instances of the source's
`Repr` class (see the module docstring). -/
inductive Val where
  | str (s : String)
  | int (n : ℤ)
  | bool (b : Bool)
  | float (f : PFloat)
  | array (a : NDArray)
  | missing
  | reprV (s : String)
  | leaf (tag : String) (r : String)
  | map (kvs : List (String × Val))
  | seq (elems : List Val)
  | special (k : SKind) (fields : List (String × Val))

/-- `isinstance(v, str)`. -/
def isStrV : Val → Bool
  | .str _ => true
  | _ => false

/-- `isinstance(v, int)` — in Python `bool` is a subclass of `int`, so
both `Val.int` and `Val.bool` satisfy it. -/
def isIntV : Val → Bool
  | .int _ => true
  | .bool _ => true
  | _ => false

/-- The Python runtime type (`type(v)`) as a name.  Both `Repr`
embeddings share the type `Repr`; an opaque leaf's tag is its type. -/
def typeName : Val → String
  | .str _ => "str"
  | .int _ => "int"
  | .bool _ => "bool"
  | .float _ => "float"
  | .array _ => "ndarray"
  | .missing => "Repr"
  | .reprV _ => "Repr"
  | .leaf t _ => t
  | .map _ => "dict"
  | .seq _ => "list"
  | .special .cubicSpline _ => "CubicSpline"
  | .special .unitStructArray _ => "UnitStructArray"

/-- IEEE / Python `==` on floats: NaN is unequal to everything
(including itself), infinities compare by sign, finite values
exactly. -/
def pfloatEq : PFloat → PFloat → Bool
  | .finite q1, .finite q2 => q1 == q2
  | .inf s1, .inf s2 => s1 == s2
  | _, _ => false

/-- Python `==` restricted to the value pairs on which `diff_trees`
actually uses it: two strings, two `int` instances (where `True == 1`),
two floats, or two opaque leaves (abstracted as tag/repr equality).
The `Repr` sentinel instances of the source have no `__eq__`, so two
distinct instances never compare equal: every case involving
`missing`/`reprV` falls through to `false`. -/
def pyEq : Val → Val → Bool
  | .str s1, .str s2 => s1 == s2
  | .int n1, .int n2 => n1 == n2
  | .bool b1, .bool b2 => b1 == b2
  | .bool b1, .int n2 => (if b1 then (1 : ℤ) else 0) == n2
  | .int n1, .bool b2 => n1 == (if b2 then (1 : ℤ) else 0)
  | .float f1, .float f2 => pfloatEq f1 f2
  | .leaf t1 r1, .leaf t2 r2 => t1 == t2 && r1 == r2
  | _, _ => false

/-- `is_leaf`: strings are leaves even though they are sequences; other
mappings/sequences are not leaves; numbers, arrays (no Python instance
variables), opaque leaf types and the two special types (one callable,
one a registered leaf type) are leaves; a `Repr` instance has a
`__dict__`, is not callable and is no registered leaf type, so it is
not a leaf. -/
def is_leafV : Val → Bool
  | .str _ => true
  | .int _ => true
  | .bool _ => true
  | .float _ => true
  | .array _ => true
  | .missing => false
  | .reprV _ => false
  | .leaf _ _ => true
  | .map _ => false
  | .seq _ => false
  | .special _ _ => true

/-- An apostrophe character, built from its code point to keep string
literals quote-free. -/
def squote : String := Char.toString (Char.ofNat 39)

/-- Python `repr` of a float (`repr` of finite values is abstracted as
the rational's textual form). -/
def floatRepr : PFloat → String
  | .nan => "nan"
  | .inf false => "inf"
  | .inf true => "-inf"
  | .finite q => toString q

/-- Python `repr` of an embedded value.  String escaping, numpy's array
layout and the `object at 0x...>` address of special objects are
abstracted; the recursive structure (quoted strings, brace-delimited
dicts, bracketed lists) mirrors Python. -/
def pyRepr : Val → String
  | .str s => squote ++ s ++ squote
  | .int n => toString n
  | .bool b => if b then "True" else "False"
  | .float f => floatRepr f
  | .missing => "--"
  | .reprV s => s
  | .leaf _ r => r
  | .array a => "array([" ++ String.intercalate ", " (a.data.map floatRepr) ++ "])"
  | .map kvs =>
      "\x7b" ++ String.intercalate ", "
        (kvs.attach.map (fun kv => squote ++ kv.1.1 ++ squote ++ ": " ++ pyRepr kv.1.2))
        ++ "\x7d"
  | .seq xs =>
      "[" ++ String.intercalate ", " (xs.attach.map (fun x => pyRepr x.1)) ++ "]"
  | .special .cubicSpline _ => "<CubicSpline object>"
  | .special .unitStructArray _ => "<UnitStructArray object>"
termination_by v => sizeOf v
decreasing_by
  · obtain ⟨⟨k, v⟩, hkv⟩ := kv
    have h1 : sizeOf (k, v) < sizeOf kvs := List.sizeOf_lt_of_mem hkv
    simp at h1 ⊢
    omega
  · obtain ⟨x, hx⟩ := x
    have h1 : sizeOf x < sizeOf xs := List.sizeOf_lt_of_mem hx
    simp
    omega

/-- `elide(value, max_len)`: return the value itself if its repr fits,
else a `Repr` of the truncated repr with `"..."` appended. -/
def elide (value : Val) (maxLen : Nat) : Val :=
  let r := pyRepr value
  if maxLen < r.length then Val.reprV (r.take maxLen ++ "...") else value

/-- The result of `diff_trees` / the comparators.  `none` is Python
`None` (falling off the end of the function), `zeroFloat` is the `0.0`
returned by `compare_floats`, `emptyTuple` is the `()` returned by
`compare_ndarrays`; `descr x y` stands for the
`simplify_error_message(...)` `Repr` built from the numpy assertion
error for the array pair `(x, y)` (the message text is a function of
the two operands and is abstracted as the pair itself). -/
inductive Diff where
  | none
  | zeroFloat
  | emptyTuple
  | pair (l r : Val)
  | dmap (entries : List (String × Diff))
  | dseq (elems : List Diff)
  | descr (x y : NDArray)

/-- Python falsiness of a diff result: `None`, `0.0`, `()`, `{}` and
`[]` are falsy, everything else truthy. -/
def Diff.falsy : Diff → Bool
  | .none => true
  | .zeroFloat => true
  | .emptyTuple => true
  | .dmap [] => true
  | .dseq [] => true
  | _ => false

/-- `NULP`: the float-comparison tolerance constant of the source
(0 units in the last place, i.e. exact comparison of finite values). -/
def NULP : Nat := 0

/-- `np.testing.assert_array_almost_equal_nulp(f1, f2, nulp=NULP)`
succeeding on two scalars.  With `NULP = 0` the spacing-scaled bound
degenerates to exact equality of finite values; any NaN or infinity
makes the assertion fail (`inf - inf` and NaN propagate to a failed
comparison). -/
def scalarEqNulp : PFloat → PFloat → Bool
  | .finite q1, .finite q2 => q1 == q2
  | _, _ => false

/-- Elementwise equality as `np.testing.assert_array_equal` /
`np.testing.assert_equal` see it: NaNs match positionally, infinities
match by sign, finite values exactly. -/
def scalarEqExact : PFloat → PFloat → Bool
  | .nan, .nan => true
  | .inf s1, .inf s2 => s1 == s2
  | .finite q1, .finite q2 => q1 == q2
  | _, _ => false

/-- Pointwise lifting of a scalar comparison to two buffers (the numpy
assertions compare the full buffers; unequal buffer lengths fail). -/
def listAll2 (p : PFloat → PFloat → Bool) (xs ys : List PFloat) : Bool :=
  xs.length == ys.length && (List.zip xs ys).all (fun xy => p xy.1 xy.2)

/-- `compare_floats(f1, f2)`: `0.0` if IEEE-equal or both NaN, else try
the NULP tolerance, else return the literal pair. -/
def compare_floats (f1 f2 : PFloat) : Diff :=
  if pfloatEq f1 f2 || (f1 == PFloat.nan && f2 == PFloat.nan) then Diff.zeroFloat
  else if scalarEqNulp f1 f2 then Diff.zeroFloat
  else Diff.pair (Val.float f1) (Val.float f2)

/-- The dtype's textual name as it appears in the shape/dtype summary. -/
def DType.reprName : DType → String
  | .f64 => "float64"
  | .i64 => "int64"
  | .obj => "object"

/-- Python tuple repr of a shape: `()`, `(2,)`, `(2, 3)`. -/
def shapeRepr : List Nat → String
  | [] => "()"
  | [n] => "(" ++ toString n ++ ",)"
  | ns => "(" ++ String.intercalate ", " (ns.map toString) ++ ")"

/-- `summarize_array(ndarray)`: `Repr(f"array({shape} {dtype})")` — a
compact shape/dtype summary carrying no element data. -/
def summarize_array (a : NDArray) : Val :=
  Val.reprV ("array(" ++ shapeRepr a.shape ++ " " ++ a.dtype.reprName ++ ")")

/-- `compare_ndarrays(array1, array2)`, mirroring the source's control
flow: shape mismatch returns the summary pair; a floating `array1`
first tries the NULP comparison and on failure falls through to the
final exact comparison; object-dtype pairs compare element-by-element
with `np.testing.assert_equal` and return the error description on
failure; everything else (and the floating fall-through) uses
`np.testing.assert_array_equal`, which treats NaNs as equal. -/
def compare_ndarrays (a1 a2 : NDArray) : Diff :=
  if a1.shape ≠ a2.shape then
    Diff.pair (summarize_array a1) (summarize_array a2)
  else if a1.dtype == DType.f64 && listAll2 scalarEqNulp a1.data a2.data then
    Diff.emptyTuple
  else if !(a1.dtype == DType.f64) && (a1.dtype == DType.obj) && (a2.dtype == DType.obj) then
    (if listAll2 scalarEqExact a1.data a2.data then Diff.emptyTuple else Diff.descr a1 a2)
  else if listAll2 scalarEqExact a1.data a2.data then Diff.emptyTuple
  else Diff.descr a1 a2

/-- `mapping.get(key, default)` on a string-keyed association list. -/
def dictGet (kvs : List (String × Val)) (k : String) (dflt : Val) : Val :=
  match kvs.find? (fun kv => kv.1 == k) with
  | Option.some kv => kv.2
  | Option.none => dflt

/-- `sequence[i]` with the `Repr("--")` sentinel beyond the end (the
source only indexes within the padded length, where the two coincide). -/
def seqGet (xs : List Val) (i : Nat) : Val :=
  match xs[i]? with
  | Option.some v => v
  | Option.none => Val.missing

/-- `set(a.keys()) | set(b.keys())` determinized: Python set iteration
order is unspecified, so the model fixes the symmetric canonical order
(sorted distinct keys). -/
def unionKeys (ka kb : List (String × Val)) : List String :=
  List.insertionSort (fun s t => s ≤ t) ((ka.map Prod.fst ++ kb.map Prod.fst).dedup)

theorem val_sizeOf_pos (v : Val) : 0 < sizeOf v := by
  cases v <;> simp

theorem list_val_sizeOf_pos (xs : List Val) : 0 < sizeOf xs := by
  cases xs <;> simp

theorem list_pair_sizeOf_pos (kvs : List (String × Val)) : 0 < sizeOf kvs := by
  cases kvs <;> simp

theorem dictGet_sizeOf_lt (kvs : List (String × Val)) (k : String) :
    sizeOf (dictGet kvs k Val.missing) < 1 + sizeOf kvs := by
  unfold dictGet
  cases h : kvs.find? (fun kv => kv.1 == k) with
  | none =>
      have := list_pair_sizeOf_pos kvs
      simp
      omega
  | some kv =>
      have hm : kv ∈ kvs := List.mem_of_find?_eq_some h
      have h1 : sizeOf kv < sizeOf kvs := List.sizeOf_lt_of_mem hm
      obtain ⟨a, b⟩ := kv
      simp at h1 ⊢
      omega

theorem seqGet_pad_sizeOf_lt (xs : List Val) (m i : Nat) :
    sizeOf (seqGet (xs ++ List.replicate m Val.missing) i) < 1 + sizeOf xs := by
  unfold seqGet
  have hpos := list_val_sizeOf_pos xs
  cases h : (xs ++ List.replicate m Val.missing)[i]? with
  | none =>
      simp
      omega
  | some v =>
      have hm : v ∈ xs ++ List.replicate m Val.missing := List.getElem?_mem h
      rcases List.mem_append.1 hm with hx | hr
      · have h1 := List.sizeOf_lt_of_mem hx
        simp
        omega
      · have hv : v = Val.missing := List.eq_of_mem_replicate hr
        subst hv
        simp
        omega

/-- `diff_trees(a, b)`: the structural differ, with the source's
dispatch order.  Branch 1 (both `str` or both `int` instances) returns
the elided pair on `!=`, else falls off the function (`None`); branch 2
is the runtime-type mismatch with the 400-character bound; then floats,
arrays, special-attribute objects, leaves, mappings (union of keys with
the `Repr("--")` default), sequences (pad the shorter with `Repr("--")`
sentinels, then diff index by index); any remaining value pair (only
`Repr` instances in this universe) hits the diagnostic `else` and
returns `None`.  The `unum.Unum` branch of the source sits between the
array and special branches; `Unum` values are outside this embedded
universe, so it has no case here. -/
def diff_trees (a b : Val) : Diff :=
  if (isStrV a && isStrV b) || (isIntV a && isIntV b) then
    if pyEq a b then Diff.none else Diff.pair (elide a 200) (elide b 200)
  else if typeName a ≠ typeName b then
    Diff.pair (elide a 400) (elide b 400)
  else
    match a, b with
    | Val.float f1, Val.float f2 => compare_floats f1 f2
    | Val.array x, Val.array y => compare_ndarrays x y
    | Val.special k fa, Val.special _ fb =>
        Diff.dmap ((SKind.attrs k).filterMap (fun attr =>
          let sub := diff_trees (dictGet fa attr Val.missing) (dictGet fb attr Val.missing)
          if sub.falsy then Option.none else Option.some (attr, sub)))
    | Val.leaf t1 r1, Val.leaf t2 r2 =>
        if pyEq (Val.leaf t1 r1) (Val.leaf t2 r2) then Diff.none
        else Diff.pair (elide (Val.leaf t1 r1) 200) (elide (Val.leaf t2 r2) 200)
    | Val.map ka, Val.map kb =>
        Diff.dmap ((unionKeys ka kb).filterMap (fun k =>
          let sub := diff_trees (dictGet ka k Val.missing) (dictGet kb k Val.missing)
          if sub.falsy then Option.none else Option.some (k, sub)))
    | Val.seq xs, Val.seq ys =>
        let n := max xs.length ys.length
        Diff.dseq ((List.range n).filterMap (fun i =>
          let sub := diff_trees
            (seqGet (xs ++ List.replicate (n - xs.length) Val.missing) i)
            (seqGet (ys ++ List.replicate (n - ys.length) Val.missing) i)
          if sub.falsy then Option.none else Option.some sub))
    | _, _ => Diff.none
termination_by sizeOf a + sizeOf b
decreasing_by
  · have h1 := dictGet_sizeOf_lt fa attr
    have h2 := dictGet_sizeOf_lt fb attr
    simp; omega
  · have h1 := dictGet_sizeOf_lt ka k
    have h2 := dictGet_sizeOf_lt kb k
    simp; omega
  · have h1 := seqGet_pad_sizeOf_lt xs (max xs.length ys.length - xs.length) i
    have h2 := seqGet_pad_sizeOf_lt ys (max xs.length ys.length - ys.length) i
    simp; omega

/-- Swapping the two operands inside a diff result: pairs and error
descriptions swap their components, sub-diffs swap recursively, falsy
results are fixed. -/
def Diff.swap : Diff → Diff
  | .none => .none
  | .zeroFloat => .zeroFloat
  | .emptyTuple => .emptyTuple
  | .pair l r => .pair r l
  | .dmap es => .dmap (es.attach.map (fun kd => (kd.1.1, kd.1.2.swap)))
  | .dseq es => .dseq (es.attach.map (fun d => d.1.swap))
  | .descr x y => .descr y x
termination_by d => sizeOf d
decreasing_by
  · obtain ⟨⟨k, d⟩, h⟩ := kd
    have h1 : sizeOf (k, d) < sizeOf es := List.sizeOf_lt_of_mem h
    simp at h1 ⊢
    omega
  · obtain ⟨d, h⟩ := d
    have h1 : sizeOf d < sizeOf es := List.sizeOf_lt_of_mem h
    simp
    omega

theorem Diff.swap_dmap (es : List (String × Diff)) :
    (Diff.dmap es).swap = Diff.dmap (es.map (fun kd => (kd.1, kd.2.swap))) := by
  rw [Diff.swap]
  congr 1
  exact List.attach_map_val es (fun kd => (kd.1, kd.2.swap))

theorem Diff.swap_dseq (es : List Diff) :
    (Diff.dseq es).swap = Diff.dseq (es.map Diff.swap) := by
  rw [Diff.swap]
  congr 1
  exact List.attach_map_val es Diff.swap

theorem falsy_swap (d : Diff) : d.swap.falsy = d.falsy := by
  cases d with
  | dmap es => rw [Diff.swap_dmap]; cases es <;> simp [Diff.falsy]
  | dseq es => rw [Diff.swap_dseq]; cases es <;> simp [Diff.falsy]
  | _ => simp [Diff.swap, Diff.falsy]

theorem cond1_symm (a b : Val) :
    ((isStrV a && isStrV b) || (isIntV a && isIntV b))
      = ((isStrV b && isStrV a) || (isIntV b && isIntV a)) := by
  rw [Bool.and_comm, Bool.and_comm (isIntV a)]

theorem pfloatEq_symm (f1 f2 : PFloat) : pfloatEq f1 f2 = pfloatEq f2 f1 := by
  cases f1 <;> cases f2 <;> simp [pfloatEq, Bool.beq_comm, eq_comm]

theorem scalarEqNulp_symm (f1 f2 : PFloat) : scalarEqNulp f1 f2 = scalarEqNulp f2 f1 := by
  cases f1 <;> cases f2 <;> simp [scalarEqNulp, Bool.beq_comm, eq_comm]

theorem scalarEqExact_symm (f1 f2 : PFloat) : scalarEqExact f1 f2 = scalarEqExact f2 f1 := by
  cases f1 <;> cases f2 <;> simp [scalarEqExact, Bool.beq_comm, eq_comm]

theorem pyEq_symm (a b : Val) : pyEq a b = pyEq b a := by
  cases a <;> cases b <;> simp [pyEq, pfloatEq_symm, Bool.beq_comm, eq_comm]

theorem listAll2_symm (p : PFloat → PFloat → Bool) (hp : ∀ u v, p u v = p v u)
    (xs ys : List PFloat) : listAll2 p xs ys = listAll2 p ys xs := by
  unfold listAll2
  rw [Bool.beq_comm, ← List.zip_swap xs ys, List.all_map]
  have hfun : ((fun (xy : PFloat × PFloat) => p xy.1 xy.2) ∘ Prod.swap)
      = (fun (xy : PFloat × PFloat) => p xy.1 xy.2) := by
    funext xy
    exact hp xy.2 xy.1
  rw [hfun]

theorem scalarEqNulp_imp_exact (u v : PFloat) (h : scalarEqNulp u v = true) :
    scalarEqExact u v = true := by
  cases u <;> cases v <;> simp_all [scalarEqNulp, scalarEqExact]

theorem listAll2_nulp_imp_exact (xs ys : List PFloat)
    (h : listAll2 scalarEqNulp xs ys = true) : listAll2 scalarEqExact xs ys = true := by
  unfold listAll2 at h ⊢
  simp only [Bool.and_eq_true] at h ⊢
  refine ⟨h.1, ?_⟩
  rw [List.all_eq_true] at h ⊢
  intro uv huv
  exact scalarEqNulp_imp_exact uv.1 uv.2 (h.2 uv huv)

theorem compare_floats_swap (f1 f2 : PFloat) :
    compare_floats f2 f1 = (compare_floats f1 f2).swap := by
  unfold compare_floats
  rw [pfloatEq_symm f2 f1, scalarEqNulp_symm f2 f1, Bool.and_comm (f2 == PFloat.nan)]
  by_cases h1 : (pfloatEq f1 f2 || (f1 == PFloat.nan && f2 == PFloat.nan)) = true
  · simp [h1, Diff.swap]
  · simp only [Bool.not_eq_true] at h1
    by_cases h2 : scalarEqNulp f1 f2 = true
    · simp [h1, h2, Diff.swap]
    · simp only [Bool.not_eq_true] at h2
      simp [h1, h2, Diff.swap]


theorem Diff.swap_base1 : Diff.none.swap = Diff.none := by rw [Diff.swap]
theorem Diff.swap_base2 : Diff.zeroFloat.swap = Diff.zeroFloat := by rw [Diff.swap]
theorem Diff.swap_base3 : Diff.emptyTuple.swap = Diff.emptyTuple := by rw [Diff.swap]
theorem Diff.swap_base4 (l r : Val) : (Diff.pair l r).swap = Diff.pair r l := by rw [Diff.swap]
theorem Diff.swap_base5 (x y : NDArray) : (Diff.descr x y).swap = Diff.descr y x := by rw [Diff.swap]

set_option maxRecDepth 8192 in
theorem compare_ndarrays_swap (x y : NDArray) :
    compare_ndarrays y x = (compare_ndarrays x y).swap := by
  unfold compare_ndarrays
  by_cases hs : x.shape = y.shape
  · have hs' : y.shape = x.shape := hs.symm
    rw [if_neg (show ¬(y.shape ≠ x.shape) from fun h => h hs')]
    rw [if_neg (show ¬(x.shape ≠ y.shape) from fun h => h hs)]
    rw [listAll2_symm scalarEqNulp scalarEqNulp_symm y.data x.data,
        listAll2_symm scalarEqExact scalarEqExact_symm y.data x.data]
    by_cases hnp : listAll2 scalarEqNulp x.data y.data = true
    · have hex : listAll2 scalarEqExact x.data y.data = true :=
        listAll2_nulp_imp_exact x.data y.data hnp
      cases hdx : x.dtype <;> cases hdy : y.dtype <;>
        simp [hnp, hex, Diff.swap_base3]
    · simp only [Bool.not_eq_true] at hnp
      by_cases hex : listAll2 scalarEqExact x.data y.data = true
      · cases hdx : x.dtype <;> cases hdy : y.dtype <;>
          simp [hnp, hex, Diff.swap_base3]
      · simp only [Bool.not_eq_true] at hex
        cases hdx : x.dtype <;> cases hdy : y.dtype <;>
          simp [hnp, hex, Diff.swap_base5]
  · have hs' : y.shape ≠ x.shape := fun h => hs h.symm
    simp [hs, hs', Diff.swap_base4]

theorem mem_unionKeys (ka kb : List (String × Val)) (k : String) :
    k ∈ unionKeys ka kb ↔ k ∈ ka.map Prod.fst ∨ k ∈ kb.map Prod.fst := by
  unfold unionKeys
  rw [(List.perm_insertionSort _ _).mem_iff, List.mem_dedup, List.mem_append]

theorem nodup_unionKeys (ka kb : List (String × Val)) : (unionKeys ka kb).Nodup := by
  unfold unionKeys
  exact (List.perm_insertionSort _ _).nodup_iff.2 (List.nodup_dedup _)

theorem unionKeys_comm (ka kb : List (String × Val)) :
    unionKeys ka kb = unionKeys kb ka := by
  unfold unionKeys
  have hperm : ((ka.map Prod.fst ++ kb.map Prod.fst).dedup).Perm
      ((kb.map Prod.fst ++ ka.map Prod.fst).dedup) := by
    refine (List.perm_ext_iff_of_nodup (List.nodup_dedup _) (List.nodup_dedup _)).2 ?_
    intro x
    simp only [List.mem_dedup, List.mem_append]
    exact Or.comm
  exact List.eq_of_perm_of_sorted
    ((List.perm_insertionSort _ _).trans (hperm.trans (List.perm_insertionSort _ _).symm))
    (List.sorted_insertionSort _ _) (List.sorted_insertionSort _ _)

theorem skind_eq_of_typeName (k k1 : SKind) (fa fb : List (String × Val))
    (h : typeName (Val.special k fa) = typeName (Val.special k1 fb)) : k = k1 := by
  cases k <;> cases k1 <;> simp_all [typeName]

theorem diff_trees_swap_aux (a b : Val) : diff_trees b a = (diff_trees a b).swap := by
  induction a, b using diff_trees.induct with
  | case1 a b h1 h2 =>
      have h1' : ((isStrV b && isStrV a) || (isIntV b && isIntV a)) = true :=
        (cond1_symm b a).trans h1
      have h2' : pyEq b a = true := (pyEq_symm b a).trans h2
      conv_lhs => rw [diff_trees.eq_def]
      conv_rhs => rw [diff_trees.eq_def]
      simp [h1, h1', h2, h2', Diff.swap_base1]
  | case2 a b h1 h2 =>
      have h1' : ((isStrV b && isStrV a) || (isIntV b && isIntV a)) = true :=
        (cond1_symm b a).trans h1
      have h2' : ¬pyEq b a = true := fun hc => h2 ((pyEq_symm a b).trans hc)
      conv_lhs => rw [diff_trees.eq_def]
      conv_rhs => rw [diff_trees.eq_def]
      simp [h1, h1', h2, h2', Diff.swap_base4]
  | case3 a b h1 h2 =>
      have h1' : ¬((isStrV b && isStrV a) || (isIntV b && isIntV a)) = true :=
        fun hc => h1 ((cond1_symm a b).trans hc)
      have h2' : typeName b ≠ typeName a := fun hc => h2 hc.symm
      conv_lhs => rw [diff_trees.eq_def]
      conv_rhs => rw [diff_trees.eq_def]
      simp [h1, h1', h2, h2', Diff.swap_base4]
  | case4 f1 f2 h1 h2 =>
      conv_lhs => rw [diff_trees.eq_def]
      conv_rhs => rw [diff_trees.eq_def]
      simp [isStrV, isIntV, typeName]
      exact compare_floats_swap f1 f2
  | case5 x y h1 h2 =>
      conv_lhs => rw [diff_trees.eq_def]
      conv_rhs => rw [diff_trees.eq_def]
      simp [isStrV, isIntV, typeName]
      exact compare_ndarrays_swap x y
  | case6 k fa k1 fb h1 h2 ih =>
      obtain rfl : k = k1 := skind_eq_of_typeName k k1 fa fb (not_ne_iff.1 h2)
      have ht : typeName (Val.special k fa) = typeName (Val.special k fb) := by
        cases k <;> rfl
      conv_lhs => rw [diff_trees.eq_def]
      conv_rhs => rw [diff_trees.eq_def]
      rw [if_neg (show ¬((isStrV (Val.special k fb) && isStrV (Val.special k fa) ||
            isIntV (Val.special k fb) && isIntV (Val.special k fa)) = true) from
          fun h => Bool.noConfusion h)]
      rw [if_neg (show ¬(typeName (Val.special k fb) ≠ typeName (Val.special k fa)) from
          fun h => h ht.symm)]
      rw [if_neg (show ¬((isStrV (Val.special k fa) && isStrV (Val.special k fb) ||
            isIntV (Val.special k fa) && isIntV (Val.special k fb)) = true) from
          fun h => Bool.noConfusion h)]
      rw [if_neg (show ¬(typeName (Val.special k fa) ≠ typeName (Val.special k fb)) from
          fun h => h ht)]
      dsimp only []
      rw [Diff.swap_dmap, List.map_filterMap]
      apply congrArg
      apply List.filterMap_congr
      intro attr _
      have hsub := ih attr
      rw [hsub, falsy_swap]
      by_cases hfal : (diff_trees (dictGet fa attr Val.missing)
          (dictGet fb attr Val.missing)).falsy = true
      · simp [hfal]
      · simp only [Bool.not_eq_true] at hfal
        simp [hfal]
  | case7 t1 r1 t2 r2 heq h1 h2 =>
      have ht : t1 = t2 := not_ne_iff.1 h2
      subst ht
      have heq' : pyEq (Val.leaf t1 r2) (Val.leaf t1 r1) = true :=
        (pyEq_symm _ _).trans heq
      conv_lhs => rw [diff_trees.eq_def]
      conv_rhs => rw [diff_trees.eq_def]
      simp [isStrV, isIntV, typeName, heq, heq', Diff.swap_base1]
  | case8 t1 r1 t2 r2 heq h1 h2 =>
      have ht : t1 = t2 := not_ne_iff.1 h2
      subst ht
      have heq' : ¬pyEq (Val.leaf t1 r2) (Val.leaf t1 r1) = true :=
        fun hc => heq ((pyEq_symm _ _).trans hc)
      conv_lhs => rw [diff_trees.eq_def]
      conv_rhs => rw [diff_trees.eq_def]
      simp [isStrV, isIntV, typeName, heq, heq', Diff.swap_base4]
  | case9 ka kb h1 h2 ih =>
      conv_lhs => rw [diff_trees.eq_def]
      conv_rhs => rw [diff_trees.eq_def]
      rw [if_neg (show ¬((isStrV (Val.map kb) && isStrV (Val.map ka) ||
            isIntV (Val.map kb) && isIntV (Val.map ka)) = true) from fun h => Bool.noConfusion h)]
      rw [if_neg (show ¬(typeName (Val.map kb) ≠ typeName (Val.map ka)) from fun h => h rfl)]
      rw [if_neg (show ¬((isStrV (Val.map ka) && isStrV (Val.map kb) ||
            isIntV (Val.map ka) && isIntV (Val.map kb)) = true) from fun h => Bool.noConfusion h)]
      rw [if_neg (show ¬(typeName (Val.map ka) ≠ typeName (Val.map kb)) from fun h => h rfl)]
      dsimp only []
      rw [Diff.swap_dmap, List.map_filterMap, unionKeys_comm kb ka]
      apply congrArg
      apply List.filterMap_congr
      intro k _
      have hsub := ih k
      rw [hsub, falsy_swap]
      by_cases hfal : (diff_trees (dictGet ka k Val.missing)
          (dictGet kb k Val.missing)).falsy = true
      · simp [hfal]
      · simp only [Bool.not_eq_true] at hfal
        simp [hfal]
  | case10 xs ys n h1 h2 ih =>
      conv_lhs => rw [diff_trees.eq_def]
      conv_rhs => rw [diff_trees.eq_def]
      rw [if_neg (show ¬((isStrV (Val.seq ys) && isStrV (Val.seq xs) ||
            isIntV (Val.seq ys) && isIntV (Val.seq xs)) = true) from fun h => Bool.noConfusion h)]
      rw [if_neg (show ¬(typeName (Val.seq ys) ≠ typeName (Val.seq xs)) from fun h => h rfl)]
      rw [if_neg (show ¬((isStrV (Val.seq xs) && isStrV (Val.seq ys) ||
            isIntV (Val.seq xs) && isIntV (Val.seq ys)) = true) from fun h => Bool.noConfusion h)]
      rw [if_neg (show ¬(typeName (Val.seq xs) ≠ typeName (Val.seq ys)) from fun h => h rfl)]
      dsimp only []
      rw [Diff.swap_dseq, List.map_filterMap]
      rw [show ys.length ⊔ xs.length = xs.length ⊔ ys.length from Nat.max_comm _ _]
      apply congrArg
      apply List.filterMap_congr
      intro i _
      have hsub := ih i
      rw [hsub, falsy_swap]
      by_cases hfal : (diff_trees
          (seqGet (xs ++ List.replicate (xs.length ⊔ ys.length - xs.length) Val.missing) i)
          (seqGet (ys ++ List.replicate (xs.length ⊔ ys.length - ys.length) Val.missing) i)).falsy = true
      · simp [hfal]
      · simp only [Bool.not_eq_true] at hfal
        simp [hfal]
  | case11 a b h1 h2 hf ha hs hl hm hsq =>
      have h1' : ¬((isStrV b && isStrV a) || (isIntV b && isIntV a)) = true :=
        fun hc => h1 ((cond1_symm a b).trans hc)
      have h2' : ¬typeName b ≠ typeName a := fun hc => hc (not_ne_iff.1 h2).symm
      have e1 : diff_trees a b = Diff.none := by
        conv_lhs => rw [diff_trees.eq_def]
        rw [if_neg h1, if_neg h2]
        split
        · rename_i f1 f2
          exact (hf f1 f2 rfl rfl).elim
        · rename_i x y
          exact (ha x y rfl rfl).elim
        · rename_i k fa k1 fb
          exact (hs k fa k1 fb rfl rfl).elim
        · rename_i t1 r1 t2 r2
          exact (hl t1 r1 t2 r2 rfl rfl).elim
        · rename_i ka kb
          exact (hm ka kb rfl rfl).elim
        · rename_i xs ys
          exact (hsq xs ys rfl rfl).elim
        · rfl
      have e2 : diff_trees b a = Diff.none := by
        conv_lhs => rw [diff_trees.eq_def]
        rw [if_neg h1', if_neg h2']
        split
        · rename_i f1 f2
          exact (hf f2 f1 rfl rfl).elim
        · rename_i x y
          exact (ha y x rfl rfl).elim
        · rename_i k fa k1 fb
          exact (hs k1 fb k fa rfl rfl).elim
        · rename_i t1 r1 t2 r2
          exact (hl t2 r2 t1 r1 rfl rfl).elim
        · rename_i ka kb
          exact (hm kb ka rfl rfl).elim
        · rename_i xs ys
          exact (hsq ys xs rfl rfl).elim
        · rfl
      rw [e1, e2, Diff.swap_base1]

theorem scalarEqExact_refl (u : PFloat) : scalarEqExact u u = true := by
  cases u <;> simp [scalarEqExact]

theorem zip_self_component_eq (xs : List PFloat) (uv : PFloat × PFloat)
    (h : uv ∈ xs.zip xs) : uv.1 = uv.2 := by
  induction xs with
  | nil => simp at h
  | cons x xs ih =>
      rw [List.zip_cons_cons] at h
      rcases List.mem_cons.1 h with h1 | h2
      · rw [h1]
      · exact ih h2

theorem listAll2_refl (p : PFloat → PFloat → Bool) (hp : ∀ u, p u u = true)
    (xs : List PFloat) : listAll2 p xs xs = true := by
  unfold listAll2
  simp only [beq_self_eq_true, Bool.true_and, List.all_eq_true]
  intro uv huv
  rw [zip_self_component_eq xs uv huv]
  exact hp uv.2

theorem pyEq_refl_of_branch1 (a : Val)
    (h : ((isStrV a && isStrV a) || (isIntV a && isIntV a)) = true) : pyEq a a = true := by
  cases a <;> simp_all [isStrV, isIntV, pyEq, pfloatEq]

theorem diff_trees_refl_aux (a : Val) : (diff_trees a a).falsy = true := by
  have main : ∀ x y : Val, x = y → (diff_trees x y).falsy = true := by
    intro x y
    induction x, y using diff_trees.induct with
    | case1 a b h1 h2 =>
        intro hxy
        rw [diff_trees.eq_def]
        simp [h1, h2, Diff.falsy]
    | case2 a b h1 h2 =>
        intro hxy
        subst hxy
        exact absurd (pyEq_refl_of_branch1 a h1) h2
    | case3 a b h1 h2 =>
        intro hxy
        subst hxy
        exact absurd rfl h2
    | case4 f1 f2 h1 h2 =>
        intro hxy
        obtain rfl : f1 = f2 := Val.float.inj hxy
        rw [diff_trees.eq_def]
        rw [if_neg h1, if_neg h2]
        dsimp only []
        cases f1 <;> simp [compare_floats, pfloatEq, Diff.falsy]
    | case5 x y h1 h2 =>
        intro hxy
        obtain rfl : x = y := Val.array.inj hxy
        rw [diff_trees.eq_def]
        rw [if_neg h1, if_neg h2]
        dsimp only []
        unfold compare_ndarrays
        have hex := listAll2_refl scalarEqExact scalarEqExact_refl x.data
        rw [if_neg (show ¬x.shape ≠ x.shape from fun h => h rfl)]
        by_cases hnp : (x.dtype == DType.f64 && listAll2 scalarEqNulp x.data x.data) = true
        · simp [hnp, Diff.falsy]
        · by_cases hobj : (!(x.dtype == DType.f64) && (x.dtype == DType.obj)
              && (x.dtype == DType.obj)) = true
          · simp [hnp, hobj, hex, Diff.falsy]
          · simp [hnp, hobj, hex, Diff.falsy]
    | case6 k fa k1 fb h1 h2 ih =>
        intro hxy
        obtain ⟨rfl, rfl⟩ : k = k1 ∧ fa = fb := by
          cases hxy
          exact ⟨rfl, rfl⟩
        rw [diff_trees.eq_def]
        rw [if_neg h1, if_neg h2]
        dsimp only []
        have hnil : (SKind.attrs k).filterMap (fun attr =>
            let sub := diff_trees (dictGet fa attr Val.missing) (dictGet fa attr Val.missing)
            if sub.falsy then Option.none else Option.some (attr, sub)) = [] := by
          rw [List.filterMap_eq_nil_iff]
          intro attr _
          have hsub := ih attr rfl
          simp [hsub]
        rw [hnil]
        rfl
    | case7 t1 r1 t2 r2 heq h1 h2 =>
        intro hxy
        rw [diff_trees.eq_def]
        rw [if_neg h1, if_neg h2]
        dsimp only []
        rw [if_pos heq]
        rfl
    | case8 t1 r1 t2 r2 heq h1 h2 =>
        intro hxy
        obtain ⟨rfl, rfl⟩ : t1 = t2 ∧ r1 = r2 := by
          cases hxy
          exact ⟨rfl, rfl⟩
        exact absurd (by simp [pyEq]) heq
    | case9 ka kb h1 h2 ih =>
        intro hxy
        obtain rfl : ka = kb := Val.map.inj hxy
        rw [diff_trees.eq_def]
        rw [if_neg h1, if_neg h2]
        dsimp only []
        have hnil : (unionKeys ka ka).filterMap (fun k =>
            let sub := diff_trees (dictGet ka k Val.missing) (dictGet ka k Val.missing)
            if sub.falsy then Option.none else Option.some (k, sub)) = [] := by
          rw [List.filterMap_eq_nil_iff]
          intro k _
          have hsub := ih k rfl
          simp [hsub]
        rw [hnil]
        rfl
    | case10 xs ys n h1 h2 ih =>
        intro hxy
        obtain rfl : xs = ys := Val.seq.inj hxy
        rw [diff_trees.eq_def]
        rw [if_neg h1, if_neg h2]
        dsimp only []
        have hnil : (List.range (xs.length ⊔ xs.length)).filterMap (fun i =>
            let sub := diff_trees
              (seqGet (xs ++ List.replicate (xs.length ⊔ xs.length - xs.length) Val.missing) i)
              (seqGet (xs ++ List.replicate (xs.length ⊔ xs.length - xs.length) Val.missing) i)
            if sub.falsy then Option.none else Option.some sub) = [] := by
          rw [List.filterMap_eq_nil_iff]
          intro i _
          have hsub := ih i rfl
          dsimp only []
          rw [if_pos hsub]
        rw [hnil]
        rfl
    | case11 a b h1 h2 hf ha hs hl hm hsq =>
        intro hxy
        rw [diff_trees.eq_def]
        rw [if_neg h1, if_neg h2]
        split
        · rename_i f1 f2
          exact (hf f1 f2 rfl rfl).elim
        · rename_i x y
          exact (ha x y rfl rfl).elim
        · rename_i k fa k1 fb
          exact (hs k fa k1 fb rfl rfl).elim
        · rename_i t1 r1 t2 r2
          exact (hl t1 r1 t2 r2 rfl rfl).elim
        · rename_i ka kb
          exact (hm ka kb rfl rfl).elim
        · rename_i xs ys
          exact (hsq xs ys rfl rfl).elim
        · rfl
  exact main a a rfl

/-- C1: `diff_trees` is symmetric: for every pair of trees `a`, `b`, the
two results are falsy together, and `diff_trees b a` is exactly
`diff_trees a b` with the two operands swapped inside every pair (and
inside every array-error description), with the same shape throughout. -/
theorem claim_C1_diff_trees_symmetric (a b : Val) :
    ((diff_trees a b).falsy = true ↔ (diff_trees b a).falsy = true)
    ∧ diff_trees b a = (diff_trees a b).swap := by
  refine ⟨?_, diff_trees_swap_aux a b⟩
  rw [diff_trees_swap_aux a b, falsy_swap]

/-- C2: `diff_trees` is reflexive: for every value `a` of the embedded
universe (NaN floats, arrays with NaN/Inf entries, special-attribute
objects, mappings and sequences included), `diff_trees a a` is falsy. -/
theorem claim_C2_diff_trees_reflexive (a : Val) : (diff_trees a a).falsy = true :=
  diff_trees_refl_aux a

/-- C7: `compare_floats` returns the falsy sentinel `0.0` exactly when
the floats are IEEE-equal or both NaN (the NULP tolerance is 0, i.e.
exact, so it adds nothing beyond IEEE equality of finite values), and
otherwise returns the literal pair `(f1, f2)`; and
`diff_trees(nan, nan)` is falsy. -/
theorem claim_C7_compare_floats :
    (∀ f1 f2 : PFloat,
      (compare_floats f1 f2 = Diff.zeroFloat
        ↔ (pfloatEq f1 f2 = true ∨ (f1 = PFloat.nan ∧ f2 = PFloat.nan)))
      ∧ (compare_floats f1 f2 ≠ Diff.zeroFloat
          → compare_floats f1 f2 = Diff.pair (Val.float f1) (Val.float f2)))
    ∧ (diff_trees (Val.float PFloat.nan) (Val.float PFloat.nan)).falsy = true := by
  constructor
  · intro f1 f2
    constructor
    · unfold compare_floats
      constructor
      · intro h
        by_cases h1 : (pfloatEq f1 f2 || (f1 == PFloat.nan && f2 == PFloat.nan)) = true
        · rcases Bool.or_eq_true_iff.1 h1 with hp | hn
          · exact Or.inl hp
          · refine Or.inr ?_
            have := Bool.and_eq_true_iff.1 hn
            exact ⟨eq_of_beq this.1, eq_of_beq this.2⟩
        · by_cases h2 : scalarEqNulp f1 f2 = true
          · cases f1 <;> cases f2 <;> simp_all [scalarEqNulp, pfloatEq]
          · simp [h1, h2] at h
      · intro h
        have h1 : (pfloatEq f1 f2 || (f1 == PFloat.nan && f2 == PFloat.nan)) = true := by
          rcases h with hp | ⟨hn1, hn2⟩
          · simp [hp]
          · subst hn1; subst hn2; simp
        simp [h1]
    · intro h
      unfold compare_floats at h ⊢
      by_cases h1 : (pfloatEq f1 f2 || (f1 == PFloat.nan && f2 == PFloat.nan)) = true
      · simp [h1] at h
      · by_cases h2 : scalarEqNulp f1 f2 = true
        · simp [h1, h2] at h
        · simp [h1, h2]
  · exact diff_trees_refl_aux (Val.float PFloat.nan)

/-- C7 witness: at NaN vs a finite float the comparator is not the falsy
sentinel, so by the theorem it is the literal pair. -/
theorem claim_C7_compare_floats_witness :
    compare_floats PFloat.nan (PFloat.finite 1)
      = Diff.pair (Val.float PFloat.nan) (Val.float (PFloat.finite 1)) := by
  have h := (claim_C7_compare_floats.1 PFloat.nan (PFloat.finite 1)).2
  apply h
  intro hc
  have h2 := (claim_C7_compare_floats.1 PFloat.nan (PFloat.finite 1)).1.mp hc
  simp [pfloatEq] at h2

/-- C8: when two arrays have different shapes, `compare_ndarrays`
returns the pair of compact `Repr` shape/dtype summaries and no element
data; concretely a 2-by-3 float array against a 3-by-2 float array of
the same dtype yields exactly the two summary strings. -/
theorem claim_C8_array_shape_mismatch :
    (∀ a1 a2 : NDArray, a1.shape ≠ a2.shape →
        compare_ndarrays a1 a2 = Diff.pair (summarize_array a1) (summarize_array a2))
    ∧ (∀ a : NDArray,
        summarize_array a
          = Val.reprV ("array(" ++ shapeRepr a.shape ++ " " ++ a.dtype.reprName ++ ")"))
    ∧ compare_ndarrays
        ⟨[2, 3], DType.f64, List.replicate 6 (PFloat.finite 0)⟩
        ⟨[3, 2], DType.f64, List.replicate 6 (PFloat.finite 0)⟩
        = Diff.pair (Val.reprV "array((2, 3) float64)") (Val.reprV "array((3, 2) float64)") := by
  refine ⟨?_, fun a => rfl, ?_⟩
  · intro a1 a2 h
    unfold compare_ndarrays
    rw [if_pos h]
  · rfl

/-- C8 witness: the theorem applied to the concrete 2-by-3 / 3-by-2
shape pair. -/
theorem claim_C8_array_shape_mismatch_witness :
    compare_ndarrays
        ⟨[2, 3], DType.f64, List.replicate 6 (PFloat.finite 0)⟩
        ⟨[3, 2], DType.f64, List.replicate 6 (PFloat.finite 0)⟩
      = Diff.pair
          (summarize_array ⟨[2, 3], DType.f64, List.replicate 6 (PFloat.finite 0)⟩)
          (summarize_array ⟨[3, 2], DType.f64, List.replicate 6 (PFloat.finite 0)⟩) :=
  claim_C8_array_shape_mismatch.1
    ⟨[2, 3], DType.f64, List.replicate 6 (PFloat.finite 0)⟩
    ⟨[3, 2], DType.f64, List.replicate 6 (PFloat.finite 0)⟩
    (by simp)

/-- C9: for values of differing runtime type that are not both strings
nor both `int` instances, `diff_trees` immediately returns the pair of
400-character-bound elided reprs; and whenever a repr exceeds the
applicable bound, `elide` returns a `Repr` of the repr truncated at
exactly the bound with `"..."` appended. -/
theorem claim_C9_type_mismatch_elide :
    (∀ a b : Val, typeName a ≠ typeName b →
        ((isStrV a && isStrV b) || (isIntV a && isIntV b)) = false →
        diff_trees a b = Diff.pair (elide a 400) (elide b 400))
    ∧ (∀ (v : Val) (maxLen : Nat), maxLen < (pyRepr v).length →
        elide v maxLen = Val.reprV ((pyRepr v).take maxLen ++ "...")
        ∧ ∃ p, elide v maxLen = Val.reprV (p ++ "...") ∧ p = (pyRepr v).take maxLen) := by
  constructor
  · intro a b ht hc
    rw [diff_trees.eq_def]
    rw [if_neg (show ¬((isStrV a && isStrV b) || (isIntV a && isIntV b)) = true from by
      simp [hc])]
    rw [if_pos ht]
  · intro v maxLen h
    unfold elide
    rw [if_pos h]
    exact ⟨rfl, (pyRepr v).take maxLen, rfl, rfl⟩

/-- C9 witness: an int against a string yields the elided-repr pair,
and an 8-character string elided at bound 5 is truncated at exactly 5
characters with a trailing ellipsis. -/
theorem claim_C9_type_mismatch_elide_witness :
    diff_trees (Val.int 1) (Val.str "x")
      = Diff.pair (elide (Val.int 1) 400) (elide (Val.str "x") 400)
    ∧ elide (Val.str "abcdefgh") 5 = Val.reprV (squote ++ "abcd...") := by
  have hrepr : pyRepr (Val.str "abcdefgh") = squote ++ "abcdefgh" ++ squote := by
    simp [pyRepr]
  constructor
  · exact claim_C9_type_mismatch_elide.1 (Val.int 1) (Val.str "x") (by decide) (by decide)
  · have h := (claim_C9_type_mismatch_elide.2 (Val.str "abcdefgh") 5
      (by rw [hrepr]; decide)).1
    rw [h, hrepr]
    exact congrArg Val.reprV (by decide)

/-- C10: because the both-`int`-instances test precedes the
runtime-type test and `bool` is a subclass of `int`, every numerically
equal bool/int pair diffs to `None` (falsy) in both orders even though
the two runtime types differ. -/
theorem claim_C10_bool_int_equal (b : Bool) (n : ℤ)
    (h : (if b then (1 : ℤ) else 0) = n) :
    diff_trees (Val.bool b) (Val.int n) = Diff.none
    ∧ diff_trees (Val.int n) (Val.bool b) = Diff.none
    ∧ (diff_trees (Val.bool b) (Val.int n)).falsy = true
    ∧ typeName (Val.bool b) ≠ typeName (Val.int n) := by
  have hpy : pyEq (Val.bool b) (Val.int n) = true := by
    simp [pyEq, h]
  have hpy2 : pyEq (Val.int n) (Val.bool b) = true := (pyEq_symm _ _).trans hpy
  have e1 : diff_trees (Val.bool b) (Val.int n) = Diff.none := by
    rw [diff_trees.eq_def]
    rw [if_pos (show ((isStrV (Val.bool b) && isStrV (Val.int n))
        || (isIntV (Val.bool b) && isIntV (Val.int n))) = true from rfl)]
    rw [if_pos hpy]
  have e2 : diff_trees (Val.int n) (Val.bool b) = Diff.none := by
    rw [diff_trees.eq_def]
    rw [if_pos (show ((isStrV (Val.int n) && isStrV (Val.bool b))
        || (isIntV (Val.int n) && isIntV (Val.bool b))) = true from rfl)]
    rw [if_pos hpy2]
  refine ⟨e1, e2, ?_, by simp [typeName]⟩
  rw [e1]
  rfl

/-- C10 witness: `diff_trees(True, 1)` and `diff_trees(1, True)` are
both `None`. -/
theorem claim_C10_bool_int_equal_witness :
    diff_trees (Val.bool true) (Val.int 1) = Diff.none
    ∧ diff_trees (Val.int 1) (Val.bool true) = Diff.none := by
  have h := claim_C10_bool_int_equal true 1 (by decide)
  exact ⟨h.1, h.2.1⟩

/-- Lookup of a key inside a `dmap` diff result (Python `result[key]`
presence); `Option.none` for absent keys or non-mapping results. -/
def Diff.mapLookup : Diff → String → Option Diff
  | .dmap es, k => (es.find? (fun kd => kd.1 == k)).map (fun kd => kd.2)
  | _, _ => Option.none

theorem find_filterMap_keyed (U : List String) (hU : U.Nodup)
    (g : String → Option Diff) (k : String) :
    ((U.filterMap (fun k2 => (g k2).map (fun d => (k2, d)))).find?
        (fun kd => kd.1 == k))
      = if k ∈ U then (g k).map (fun d => (k, d)) else Option.none := by
  induction U with
  | nil => simp
  | cons u U ih =>
      have hnd : U.Nodup := (List.nodup_cons.1 hU).2
      have hnu : u ∉ U := (List.nodup_cons.1 hU).1
      by_cases hk : k = u
      · subst hk
        cases hg : g k with
        | none =>
            rw [List.filterMap_cons_none (by rw [hg]; rfl)]
            rw [ih hnd, if_neg hnu, if_pos (List.mem_cons_self k U)]
            simp [hg]
        | some d =>
            rw [List.filterMap_cons_some (by rw [hg]; rfl)]
            rw [List.find?_cons_of_pos _ (by simp), if_pos (List.mem_cons_self k U)]
            simp [hg]
      · have hmem : (k ∈ u :: U) ↔ (k ∈ U) := by
          simp [List.mem_cons, hk]
        cases hg : g u with
        | none =>
            rw [List.filterMap_cons_none (by rw [hg]; rfl)]
            rw [ih hnd]
            rw [if_congr hmem rfl rfl]
        | some d =>
            rw [List.filterMap_cons_some (by rw [hg]; rfl)]
            rw [List.find?_cons_of_neg _ (by simp [Ne.symm hk]), ih hnd]
            rw [if_congr hmem rfl rfl]

/-- C5: mapping diff is the union of keys, each diffed with the
`Repr("--")` missing sentinel as the default for the absent side, and
the result contains exactly the keys with a truthy sub-diff; the
sentinel displays as `"--"` and compares equal to no value; concretely
`diff_trees({"a":1,"b":2}, {"b":2,"c":3})` reports only `"a"` and
`"c"`. -/
theorem claim_C5_mapping_key_union :
    (∀ (ka kb : List (String × Val)) (k : String),
      (diff_trees (Val.map ka) (Val.map kb)).mapLookup k
        = (if (k ∈ ka.map Prod.fst ∨ k ∈ kb.map Prod.fst)
              ∧ ¬(diff_trees (dictGet ka k Val.missing) (dictGet kb k Val.missing)).falsy = true
           then Option.some (diff_trees (dictGet ka k Val.missing) (dictGet kb k Val.missing))
           else Option.none))
    ∧ pyRepr Val.missing = "--"
    ∧ (∀ v : Val, pyEq Val.missing v = false ∧ pyEq v Val.missing = false)
    ∧ diff_trees (Val.map [("a", Val.int 1), ("b", Val.int 2)])
        (Val.map [("b", Val.int 2), ("c", Val.int 3)])
      = Diff.dmap [("a", Diff.pair (Val.int 1) Val.missing),
                   ("c", Diff.pair Val.missing (Val.int 3))] := by
  refine ⟨?_, by simp [pyRepr], ?_, ?_⟩
  · intro ka kb k
    rw [diff_trees.eq_def]
    rw [if_neg (show ¬((isStrV (Val.map ka) && isStrV (Val.map kb) ||
          isIntV (Val.map ka) && isIntV (Val.map kb)) = true) from fun h => Bool.noConfusion h)]
    rw [if_neg (show ¬(typeName (Val.map ka) ≠ typeName (Val.map kb)) from fun h => h rfl)]
    dsimp only []
    have hfun : (fun k2 =>
        if (diff_trees (dictGet ka k2 Val.missing) (dictGet kb k2 Val.missing)).falsy
        then Option.none
        else Option.some (k2, diff_trees (dictGet ka k2 Val.missing) (dictGet kb k2 Val.missing)))
      = (fun k2 =>
          ((fun s => if Diff.falsy s then Option.none else Option.some s)
            (diff_trees (dictGet ka k2 Val.missing) (dictGet kb k2 Val.missing))).map
            (fun d => (k2, d))) := by
      funext k2
      by_cases hf : (diff_trees (dictGet ka k2 Val.missing) (dictGet kb k2 Val.missing)).falsy = true
      · simp [hf]
      · simp [hf]
    rw [hfun]
    simp only [Diff.mapLookup]
    rw [find_filterMap_keyed _ (nodup_unionKeys ka kb) _ k]
    by_cases hmem : k ∈ unionKeys ka kb
    · rw [if_pos hmem]
      by_cases hfal : (diff_trees (dictGet ka k Val.missing) (dictGet kb k Val.missing)).falsy = true
      · simp [hfal]
      · simp [hfal]
        simpa using (mem_unionKeys ka kb k).1 hmem
    · have hnm : ¬(k ∈ List.map Prod.fst ka ∨ k ∈ List.map Prod.fst kb) :=
        fun hc => hmem ((mem_unionKeys ka kb k).2 hc)
      rw [if_neg hmem]
      rw [if_neg (show ¬((k ∈ List.map Prod.fst ka ∨ k ∈ List.map Prod.fst kb)
          ∧ ¬(diff_trees (dictGet ka k Val.missing) (dictGet kb k Val.missing)).falsy = true) from
        fun hc => hnm hc.1)]
      rfl
  · intro v
    exact ⟨by cases v <;> rfl, by cases v <;> rfl⟩
  · simp +decide [diff_trees, pyEq, isStrV, isIntV, typeName, unionKeys, dictGet,
      List.insertionSort, List.orderedInsert, elide, pyRepr, Diff.falsy]

theorem filterMap_if_falsy (l : List ℕ) (g : ℕ → Diff) :
    l.filterMap (fun i => if (g i).falsy then Option.none else Option.some (g i))
      = (l.map g).filter (fun d => !d.falsy) := by
  induction l with
  | nil => rfl
  | cons x l ih =>
      rw [List.filterMap_cons, List.map_cons, List.filter_cons]
      by_cases hf : (g x).falsy = true
      · simp [hf, ih]
      · simp [hf, ih]

/-- C6: sequence diff pads the shorter operand with `Repr("--")`
sentinels to the common length, diffs index by index across the whole
padded range, and keeps only the truthy per-index sub-diffs in order;
concretely `diff_trees([1,2,3], [1,2])` is a one-element list pairing
the value 3 with the missing sentinel. -/
theorem claim_C6_sequence_padding :
    (∀ xs ys : List Val,
      diff_trees (Val.seq xs) (Val.seq ys)
        = Diff.dseq (((List.range (max xs.length ys.length)).map (fun i =>
            diff_trees
              (seqGet (xs ++ List.replicate (max xs.length ys.length - xs.length) Val.missing) i)
              (seqGet (ys ++ List.replicate (max xs.length ys.length - ys.length) Val.missing) i))).filter
            (fun d => !d.falsy)))
    ∧ diff_trees (Val.seq [Val.int 1, Val.int 2, Val.int 3]) (Val.seq [Val.int 1, Val.int 2])
        = Diff.dseq [Diff.pair (Val.int 3) Val.missing] := by
  constructor
  · intro xs ys
    rw [diff_trees.eq_def]
    rw [if_neg (show ¬((isStrV (Val.seq xs) && isStrV (Val.seq ys) ||
          isIntV (Val.seq xs) && isIntV (Val.seq ys)) = true) from fun h => Bool.noConfusion h)]
    rw [if_neg (show ¬(typeName (Val.seq xs) ≠ typeName (Val.seq ys)) from fun h => h rfl)]
    dsimp only []
    rw [filterMap_if_falsy (List.range (xs.length ⊔ ys.length)) (fun i =>
      diff_trees
        (seqGet (xs ++ List.replicate (xs.length ⊔ ys.length - xs.length) Val.missing) i)
        (seqGet (ys ++ List.replicate (xs.length ⊔ ys.length - ys.length) Val.missing) i))]
  · simp +decide [diff_trees, pyEq, isStrV, isIntV, typeName, unionKeys, dictGet, seqGet,
      List.insertionSort, List.orderedInsert, elide, pyRepr, Diff.falsy,
      List.range_succ, List.filterMap_append, List.getElem?_cons_succ,
      List.getElem?_cons_zero]

/-- Abstraction of `sys.getsizeof(o) / 2**20`: the shallow size of a
value in MB.  The concrete byte counts follow CPython's typical shallow
sizes (they play no role in the structural claims, which hold for any
positive size function); all denominators are `2^20`. -/
def get_size : Val → ℚ
  | .str s => (49 + s.length : ℚ) / 2 ^ 20
  | .int _ => 28 / 2 ^ 20
  | .bool _ => 28 / 2 ^ 20
  | .float _ => 24 / 2 ^ 20
  | .array a => (112 + 8 * a.data.length : ℚ) / 2 ^ 20
  | .missing => 56 / 2 ^ 20
  | .reprV s => (56 + s.length : ℚ) / 2 ^ 20
  | .leaf _ r => (56 + r.length : ℚ) / 2 ^ 20
  | .map kvs => (64 + 8 * kvs.length : ℚ) / 2 ^ 20
  | .seq xs => (56 + 8 * xs.length : ℚ) / 2 ^ 20
  | .special _ _ => 48 / 2 ^ 20

/-- `float("{:.2f}".format(q))`: the size stored in a breakdown entry,
rounded to two decimals.  Python formats the binary double with
round-half-even; the model rounds half up, which agrees everywhere
except at exact decimal midpoints. -/
def fmt2 (q : ℚ) : ℚ := (⌊q * 100 + 1 / 2⌋ : ℚ) / 100

/-- A breakdown entry value or breakdown collection of `size_tree`: a
bare rounded size, a rounded size paired with a sub-breakdown, a dict
keyed by attribute/key, or an ordered list. -/
inductive SizeB where
  | num (q : ℚ)
  | withSub (q : ℚ) (sub : SizeB)
  | bmap (entries : List (String × SizeB))
  | bseq (entries : List SizeB)

/-- Python truthiness of the collected breakdown (`value` in
`return_val`): an empty dict or list is falsy. -/
def SizeB.truthy : SizeB → Bool
  | .bmap es => !es.isEmpty
  | .bseq es => !es.isEmpty
  | _ => true

/-- The tuple returned by `size_tree`: `(total,)` when `breakdown` is
`Option.none`, `(total, breakdown)` otherwise. -/
structure SizeResult where
  total : ℚ
  breakdown : Option SizeB

/-- `return_val(total, value)`: keep the breakdown only when the total
exceeds the cutoff and the breakdown is truthy. -/
def return_val (total : ℚ) (value : SizeB) (cutoff : ℚ) : SizeResult :=
  if cutoff < total ∧ value.truthy = true then ⟨total, Option.some value⟩
  else ⟨total, Option.none⟩

/-- `formatted` alone, or `(formatted, subsizes[1])` when the sub-call
also produced a breakdown. -/
def mkEntry (q : ℚ) : Option SizeB → SizeB
  | Option.none => SizeB.num q
  | Option.some b => SizeB.withSub q b

/-- The `get_size(o.struct_array[0]) * n_entries` per-entry estimate of
the `UnitStructArray` branch (`0` when the array is empty; `len()` on a
non-sequence value would raise in Python and contributes nothing in the
model). -/
def entryEstimate : Val → ℚ
  | .array a =>
      if a.data.length = 0 then 0
      else get_size (Val.float (a.data.headD PFloat.nan)) * a.data.length
  | .seq xs =>
      if xs.length = 0 then 0 else get_size (xs.headD Val.missing) * xs.length
  | _ => 0

/-- `size_tree(o, cutoff=0.1)`, with the source's branch order: the
`UnitStructArray` leaf branch (whose `size_tree(o.units)` sub-call uses
the default cutoff `0.1`, not the passed one) precedes the
`SPECIAL_OBJECTS` branch, then leaves, mappings, sequences, and the
final `(size,)` fallback.  The single Python loop per composite branch
accumulates the total and the breakdown simultaneously; the model
computes the same two values in two passes over the same entries. -/
def size_tree (o : Val) (cutoff : ℚ) : SizeResult :=
  match o with
  | .special .unitStructArray fields =>
      let sz := get_size (Val.special .unitStructArray fields)
        + (size_tree (dictGet fields "units" Val.missing) (1 / 10)).total
        + entryEstimate (dictGet fields "struct_array" Val.missing)
      ⟨sz, Option.none⟩
  | .special .cubicSpline fields =>
      let total := get_size (Val.special .cubicSpline fields)
        + ((SKind.attrs .cubicSpline).map (fun attr =>
            (size_tree (dictGet fields attr Val.missing) cutoff).total)).sum
      let entries := (SKind.attrs .cubicSpline).filterMap (fun attr =>
          let subsizes := size_tree (dictGet fields attr Val.missing) cutoff
          if cutoff < subsizes.total then
            Option.some (attr, mkEntry (fmt2 subsizes.total) subsizes.breakdown)
          else Option.none)
      return_val total (SizeB.bmap entries) cutoff
  | .map kvs =>
      let total := get_size (Val.map kvs) + (kvs.attach.map (fun kv =>
          (size_tree kv.1.2 cutoff).total + get_size (Val.str kv.1.1))).sum
      let entries := kvs.attach.filterMap (fun kv =>
          let subsizes := size_tree kv.1.2 cutoff
          let entry_size := subsizes.total + get_size (Val.str kv.1.1)
          if cutoff < entry_size then
            Option.some (kv.1.1, mkEntry (fmt2 entry_size) subsizes.breakdown)
          else Option.none)
      return_val total (SizeB.bmap entries) cutoff
  | .seq xs =>
      let total := get_size (Val.seq xs)
        + (xs.attach.map (fun x => (size_tree x.1 cutoff).total)).sum
      let entries := xs.attach.filterMap (fun x =>
          let subsizes := size_tree x.1 cutoff
          if cutoff < subsizes.total then
            Option.some (mkEntry (fmt2 subsizes.total) subsizes.breakdown)
          else Option.none)
      return_val total (SizeB.bseq entries) cutoff
  | v => ⟨get_size v, Option.none⟩
termination_by sizeOf o
decreasing_by
  · have h := dictGet_sizeOf_lt fields "units"
    simp
    omega
  · have h := dictGet_sizeOf_lt fields attr
    simp
    omega
  · have h := dictGet_sizeOf_lt fields attr
    simp
    omega
  · obtain ⟨⟨k1, v1⟩, hkv⟩ := kv
    have h1 : sizeOf (k1, v1) < sizeOf kvs := List.sizeOf_lt_of_mem hkv
    simp at h1 ⊢
    omega
  · obtain ⟨⟨k1, v1⟩, hkv⟩ := kv
    have h1 : sizeOf (k1, v1) < sizeOf kvs := List.sizeOf_lt_of_mem hkv
    simp at h1 ⊢
    omega
  · obtain ⟨x1, hx⟩ := x
    have h1 : sizeOf x1 < sizeOf xs := List.sizeOf_lt_of_mem hx
    simp
    omega
  · obtain ⟨x1, hx⟩ := x
    have h1 : sizeOf x1 < sizeOf xs := List.sizeOf_lt_of_mem hx
    simp
    omega

/-- The naive recursive size sum: what `size_tree(o, cutoff)[0]` adds
up, written without any cutoff. -/
def naive_size : Val → ℚ
  | .special .unitStructArray fields =>
      get_size (Val.special .unitStructArray fields)
        + naive_size (dictGet fields "units" Val.missing)
        + entryEstimate (dictGet fields "struct_array" Val.missing)
  | .special .cubicSpline fields =>
      get_size (Val.special .cubicSpline fields)
        + ((SKind.attrs .cubicSpline).map (fun attr =>
            naive_size (dictGet fields attr Val.missing))).sum
  | .map kvs =>
      get_size (Val.map kvs) + (kvs.attach.map (fun kv =>
          naive_size kv.1.2 + get_size (Val.str kv.1.1))).sum
  | .seq xs =>
      get_size (Val.seq xs) + (xs.attach.map (fun x => naive_size x.1)).sum
  | v => get_size v
termination_by o => sizeOf o
decreasing_by
  · have h := dictGet_sizeOf_lt fields "units"
    simp
    omega
  · have h := dictGet_sizeOf_lt fields attr
    simp
    omega
  · obtain ⟨⟨k1, v1⟩, hkv⟩ := kv
    have h1 : sizeOf (k1, v1) < sizeOf kvs := List.sizeOf_lt_of_mem hkv
    simp at h1 ⊢
    omega
  · obtain ⟨x1, hx⟩ := x
    have h1 : sizeOf x1 < sizeOf xs := List.sizeOf_lt_of_mem hx
    simp
    omega

/-- The unrounded candidate breakdown-entry sizes of one level of
`size_tree`: per declared attribute for a special object, per
key/value entry (value size plus key size) for a mapping, per element
for a sequence; empty for every other branch. -/
def rawEntrySizes (o : Val) : List ℚ :=
  match o with
  | .special .cubicSpline fields =>
      (SKind.attrs .cubicSpline).map (fun attr => naive_size (dictGet fields attr Val.missing))
  | .map kvs => kvs.map (fun kv => naive_size kv.2 + get_size (Val.str kv.1))
  | .seq xs => xs.map (fun x => naive_size x)
  | _ => []

/-- The rounded size stored in one breakdown entry. -/
def SizeB.entryQ : SizeB → ℚ
  | .num q => q
  | .withSub q _ => q
  | _ => 0

/-- The list of rounded sizes stored in a breakdown, in order. -/
def SizeB.storedVals : SizeB → List ℚ
  | .bmap es => es.map (fun kd => SizeB.entryQ kd.2)
  | .bseq es => es.map SizeB.entryQ
  | _ => []

theorem return_val_total (t : ℚ) (v : SizeB) (c : ℚ) : (return_val t v c).total = t := by
  unfold return_val
  split <;> rfl

theorem size_total_eq_naive (o : Val) (c : ℚ) : (size_tree o c).total = naive_size o := by
  induction o, c using size_tree.induct with
  | case1 cutoff fields ih =>
      rw [size_tree.eq_def, naive_size.eq_def]
      dsimp only []
      rw [ih]
  | case2 cutoff fields ih =>
      rw [size_tree.eq_def, naive_size.eq_def]
      dsimp only []
      rw [return_val_total]
      rw [List.map_congr_left (fun attr _ => ih attr)]
  | case3 cutoff kvs ih =>
      rw [size_tree.eq_def, naive_size.eq_def]
      dsimp only []
      rw [return_val_total]
      rw [List.map_congr_left (fun kv _ => by rw [ih kv])]
  | case4 cutoff xs ih =>
      rw [size_tree.eq_def, naive_size.eq_def]
      dsimp only []
      rw [return_val_total]
      rw [List.map_congr_left (fun x _ => ih x)]
  | case5 cutoff v h1 h2 h3 h4 =>
      rw [size_tree.eq_def, naive_size.eq_def]
      split
      · rename_i fields
        exact (h1 fields rfl).elim
      · rename_i fields
        exact (h2 fields rfl).elim
      · rename_i kvs
        exact (h3 kvs rfl).elim
      · rename_i xs
        exact (h4 xs rfl).elim
      · rfl

theorem entryQ_mkEntry (q : ℚ) (ob : Option SizeB) : SizeB.entryQ (mkEntry q ob) = q := by
  cases ob <;> rfl

theorem return_val_breakdown_none_iff (T : ℚ) (v : SizeB) (c : ℚ) :
    (return_val T v c).breakdown = Option.none ↔ ¬(c < T ∧ v.truthy = true) := by
  unfold return_val
  split <;> simp_all

theorem return_val_breakdown_some (T : ℚ) (v : SizeB) (c : ℚ) (b : SizeB)
    (h : (return_val T v c).breakdown = Option.some b) : b = v := by
  unfold return_val at h
  split at h <;> simp_all

theorem attach_filterMap_eq {α β : Type} (l : List α) (f : α → Option β) :
    l.attach.filterMap (fun x => f x.1) = l.filterMap f := by
  have h1 : (fun (x : {y // y ∈ l}) => f x.1) = (f ∘ Subtype.val) := rfl
  rw [h1, ← List.filterMap_map, List.attach_map_subtype_val]

theorem filterMap_if_map {α γ : Type} (l : List α) (p : α → Prop) [DecidablePred p]
    (h : α → γ) :
    l.filterMap (fun x => if p x then Option.some (h x) else Option.none)
      = (l.filter (fun x => decide (p x))).map h := by
  induction l with
  | nil => rfl
  | cons x l ih =>
      rw [List.filterMap_cons, List.filter_cons]
      by_cases hp : p x
      · simp [hp, ih]
      · simp [hp, ih]

theorem stored_of_filter {α : Type} (l : List α) (f : α → ℚ) (c : ℚ) :
    ((l.filter (fun x => decide (c < f x))).map f).map fmt2
      = ((l.map f).filter (fun e => decide (c < e))).map fmt2 := by
  rw [List.filter_map]
  rfl

theorem raw_le_iff_filterMap_nil {α γ : Type} (l : List α) (f : α → ℚ) (c : ℚ)
    (g : α → γ) :
    (l.filterMap (fun x => if c < f x then Option.some (g x) else Option.none) = []
      ↔ ∀ e ∈ l.map f, e ≤ c) := by
  rw [List.filterMap_eq_nil_iff]
  constructor
  · intro h e he
    rcases List.mem_map.1 he with ⟨x, hx, rfl⟩
    have := h x hx
    by_contra hlt
    rw [if_pos (lt_of_not_ge hlt)] at this
    exact Option.noConfusion this
  · intro h x hx
    rw [if_neg (not_lt_of_ge (h (f x) (List.mem_map_of_mem f hx)))]

theorem branch_breakdown_none_iff {α γ : Type} (l : List α) (f : α → ℚ) (c T : ℚ)
    (g : α → γ) (mk : List γ → SizeB)
    (hmk_truthy : ∀ es, (mk es).truthy = !es.isEmpty) :
    ((return_val T
        (mk (l.filterMap (fun x => if c < f x then Option.some (g x) else Option.none)))
        c).breakdown = Option.none
      ↔ ((∀ e ∈ l.map f, e ≤ c) ∨ T ≤ c)) := by
  rw [return_val_breakdown_none_iff]
  constructor
  · intro h
    by_cases hT : c < T
    · left
      rw [← raw_le_iff_filterMap_nil l f c g]
      by_contra hne
      apply h
      refine ⟨hT, ?_⟩
      rw [hmk_truthy]
      simp [hne]
    · exact Or.inr (le_of_not_lt hT)
  · intro h hc
    rcases h with hall | hT
    · have hnil := (raw_le_iff_filterMap_nil l f c g).2 hall
      rw [hmk_truthy, hnil] at hc
      simp at hc
    · exact absurd hc.1 (not_lt_of_ge hT)

theorem branch_breakdown_stored {α γ : Type} (l : List α) (f : α → ℚ) (c T : ℚ)
    (g : α → γ) (mk : List γ → SizeB) (projQ : γ → ℚ)
    (hmk_stored : ∀ es, (mk es).storedVals = es.map projQ)
    (hproj : ∀ x, projQ (g x) = fmt2 (f x)) :
    ∀ b, ((return_val T
        (mk (l.filterMap (fun x => if c < f x then Option.some (g x) else Option.none)))
        c).breakdown = Option.some b
      → b.storedVals = ((l.map f).filter (fun e => decide (c < e))).map fmt2) := by
  intro b hb
  have hbv := return_val_breakdown_some _ _ _ _ hb
  subst hbv
  rw [hmk_stored]
  rw [show l.filterMap (fun x => if c < f x then Option.some (g x) else Option.none)
      = (l.filter (fun x => decide (c < f x))).map g from
    filterMap_if_map l (fun x => c < f x) g]
  rw [List.map_map]
  rw [show (projQ ∘ g) = (fun x => fmt2 (f x)) from funext hproj]
  rw [show (fun x => fmt2 (f x)) = (fmt2 ∘ f) from rfl, ← List.map_map]
  exact stored_of_filter l f c

/-- C3 (amended): the top-level total of `size_tree` always equals the
naive recursive size sum, for every cutoff; the result is a bare
`(total,)` exactly when no (unrounded) breakdown-entry size exceeds the
cutoff or the total itself does not exceed it; and when a breakdown is
present, its stored figures are exactly the entry sizes exceeding the
cutoff, each rounded to two decimals — so entries are selected by their
unrounded size, while the stored (reported) figure is rounded and can
itself fall at or below the cutoff. -/
theorem claim_C3_size_tree_cutoff (o : Val) (c : ℚ) :
    (size_tree o c).total = naive_size o
    ∧ ((size_tree o c).breakdown = Option.none
        ↔ ((∀ e ∈ rawEntrySizes o, e ≤ c) ∨ naive_size o ≤ c))
    ∧ (∀ b, (size_tree o c).breakdown = Option.some b
        → b.storedVals = ((rawEntrySizes o).filter (fun e => decide (c < e))).map fmt2) := by
  refine ⟨size_total_eq_naive o c, ?_⟩
  induction o, c using size_tree.induct with
  | case1 c fields ih =>
      have hraw : rawEntrySizes (Val.special SKind.unitStructArray fields) = [] := rfl
      rw [size_tree.eq_def]
      dsimp only []
      refine ⟨?_, ?_⟩
      · simp [hraw]
      · intro b hb
        exact Option.noConfusion hb
  | case2 c fields ih =>
      have hmapraw : (SKind.attrs SKind.cubicSpline).map
          (fun attr => (size_tree (dictGet fields attr Val.missing) c).total)
            = rawEntrySizes (Val.special SKind.cubicSpline fields) := by
        rw [rawEntrySizes.eq_def]
        exact List.map_congr_left (fun attr _ => size_total_eq_naive _ _)
      have htot : (size_tree (Val.special SKind.cubicSpline fields) c).total
          = naive_size (Val.special SKind.cubicSpline fields) := size_total_eq_naive _ _
      rw [size_tree.eq_def] at htot ⊢
      dsimp only [] at htot ⊢
      rw [return_val_total] at htot
      refine ⟨?_, ?_⟩
      · rw [branch_breakdown_none_iff (SKind.attrs SKind.cubicSpline)
            (fun attr => (size_tree (dictGet fields attr Val.missing) c).total) c _
            (fun attr => (attr,
              mkEntry (fmt2 ((size_tree (dictGet fields attr Val.missing) c).total))
                ((size_tree (dictGet fields attr Val.missing) c).breakdown)))
            SizeB.bmap (fun es => rfl)]
        rw [htot, hmapraw]
      · intro b hb
        have hs := branch_breakdown_stored (SKind.attrs SKind.cubicSpline)
            (fun attr => (size_tree (dictGet fields attr Val.missing) c).total) c _
            (fun attr => (attr,
              mkEntry (fmt2 ((size_tree (dictGet fields attr Val.missing) c).total))
                ((size_tree (dictGet fields attr Val.missing) c).breakdown)))
            SizeB.bmap (fun kd => SizeB.entryQ kd.2) (fun es => rfl)
            (fun attr => entryQ_mkEntry _ _) b hb
        rw [hmapraw] at hs
        exact hs
  | case3 c kvs ih =>
      have hmapraw : kvs.map
          (fun kv => (size_tree kv.2 c).total + get_size (Val.str kv.1))
            = rawEntrySizes (Val.map kvs) := by
        rw [rawEntrySizes.eq_def]
        exact List.map_congr_left (fun kv _ => by rw [size_total_eq_naive])
      have htot : (size_tree (Val.map kvs) c).total = naive_size (Val.map kvs) :=
        size_total_eq_naive _ _
      rw [size_tree.eq_def] at htot ⊢
      dsimp only [] at htot ⊢
      rw [return_val_total] at htot
      rw [attach_filterMap_eq kvs (fun kv =>
        if c < (size_tree kv.2 c).total + get_size (Val.str kv.1) then
          Option.some (kv.1,
            mkEntry (fmt2 ((size_tree kv.2 c).total + get_size (Val.str kv.1)))
              ((size_tree kv.2 c).breakdown))
        else Option.none)]
      refine ⟨?_, ?_⟩
      · rw [branch_breakdown_none_iff kvs
            (fun kv => (size_tree kv.2 c).total + get_size (Val.str kv.1)) c _
            (fun kv => (kv.1,
              mkEntry (fmt2 ((size_tree kv.2 c).total + get_size (Val.str kv.1)))
                ((size_tree kv.2 c).breakdown)))
            SizeB.bmap (fun es => rfl)]
        rw [htot, hmapraw]
      · intro b hb
        have hs := branch_breakdown_stored kvs
            (fun kv => (size_tree kv.2 c).total + get_size (Val.str kv.1)) c _
            (fun kv => (kv.1,
              mkEntry (fmt2 ((size_tree kv.2 c).total + get_size (Val.str kv.1)))
                ((size_tree kv.2 c).breakdown)))
            SizeB.bmap (fun kd => SizeB.entryQ kd.2) (fun es => rfl)
            (fun kv => entryQ_mkEntry _ _) b hb
        rw [hmapraw] at hs
        exact hs
  | case4 c xs ih =>
      have hmapraw : xs.map (fun x => (size_tree x c).total) = rawEntrySizes (Val.seq xs) := by
        rw [rawEntrySizes.eq_def]
        exact List.map_congr_left (fun x _ => size_total_eq_naive _ _)
      have htot : (size_tree (Val.seq xs) c).total = naive_size (Val.seq xs) :=
        size_total_eq_naive _ _
      rw [size_tree.eq_def] at htot ⊢
      dsimp only [] at htot ⊢
      rw [return_val_total] at htot
      rw [attach_filterMap_eq xs (fun x =>
        if c < (size_tree x c).total then
          Option.some (mkEntry (fmt2 ((size_tree x c).total)) ((size_tree x c).breakdown))
        else Option.none)]
      refine ⟨?_, ?_⟩
      · rw [branch_breakdown_none_iff xs (fun x => (size_tree x c).total) c _
            (fun x => mkEntry (fmt2 ((size_tree x c).total)) ((size_tree x c).breakdown))
            SizeB.bseq (fun es => rfl)]
        rw [htot, hmapraw]
      · intro b hb
        have hs := branch_breakdown_stored xs (fun x => (size_tree x c).total) c _
            (fun x => mkEntry (fmt2 ((size_tree x c).total)) ((size_tree x c).breakdown))
            SizeB.bseq SizeB.entryQ (fun es => rfl)
            (fun x => entryQ_mkEntry _ _) b hb
        rw [hmapraw] at hs
        exact hs
  | case5 c v h1 h2 h3 h4 =>
      have hraw : rawEntrySizes v = [] := by
        rw [rawEntrySizes.eq_def]
        split
        · rename_i fields
          exact (h2 fields rfl).elim
        · rename_i kvs
          exact (h3 kvs rfl).elim
        · rename_i xs
          exact (h4 xs rfl).elim
        · rfl
      have hb : (size_tree v c).breakdown = Option.none := by
        rw [size_tree.eq_def]
        split
        · rename_i fields
          exact (h1 fields rfl).elim
        · rename_i fields
          exact (h2 fields rfl).elim
        · rename_i kvs
          exact (h3 kvs rfl).elim
        · rename_i xs
          exact (h4 xs rfl).elim
        · rfl
      refine ⟨?_, ?_⟩
      · simp [hb, hraw]
      · intro b hbb
        rw [hb] at hbb
        exact Option.noConfusion hbb

/-- C3 counterexample: `size_tree({"k": 5}, cutoff=0)` includes the
breakdown entry `"k"` (its unrounded size is positive, hence above the
cutoff), but the stored figure is the two-decimal rounding `0.0`, which
is not greater than the cutoff — refuting that no breakdown entry has a
reported size at or below the cutoff.  The same rounding effect occurs
at the default cutoff `0.1` for an entry whose size lies in
`(0.1, 0.105)` MB (it is stored as `0.1`). -/
theorem claim_C3_size_tree_counterexample :
    (size_tree (Val.map [("k", Val.int 5)]) 0).breakdown
      = Option.some (SizeB.bmap [("k", SizeB.num 0)])
    ∧ ((0 : ℚ) ≤ 0) := by
  refine ⟨?_, le_refl 0⟩
  have hstr : get_size (Val.str "k") = 50 / 2 ^ 20 := by
    rw [get_size.eq_def]
    dsimp only []
    rw [show "k".length = 1 from rfl]
    norm_num
  have hmapsz : get_size (Val.map [("k", Val.int 5)]) = 72 / 2 ^ 20 := by
    rw [get_size.eq_def]
    dsimp only []
    norm_num
  have hintsz : get_size (Val.int 5) = 28 / 2 ^ 20 := by
    rw [get_size.eq_def]
  have hsub : size_tree (Val.int 5) 0 = ⟨28 / 2 ^ 20, Option.none⟩ := by
    rw [size_tree.eq_def]
    dsimp only []
    rw [hintsz]
  rw [size_tree.eq_def]
  dsimp only []
  rw [attach_filterMap_eq [("k", Val.int 5)] (fun kv =>
    if (0 : ℚ) < (size_tree kv.2 0).total + get_size (Val.str kv.1) then
      Option.some (kv.1,
        mkEntry (fmt2 ((size_tree kv.2 0).total + get_size (Val.str kv.1)))
          ((size_tree kv.2 0).breakdown))
    else Option.none)]
  rw [List.attach_map_val [("k", Val.int 5)] (fun kv =>
    (size_tree kv.2 0).total + get_size (Val.str kv.1))]
  rw [List.filterMap_cons, List.map_cons, List.map_nil, List.filterMap_nil]
  rw [hsub]
  dsimp only []
  rw [hstr]
  rw [if_pos (show (0 : ℚ) < 28 / 2 ^ 20 + 50 / 2 ^ 20 by norm_num)]
  have hfmt : fmt2 (28 / 2 ^ 20 + 50 / 2 ^ 20) = 0 := by
    unfold fmt2
    rw [show ((28 : ℚ) / 2 ^ 20 + 50 / 2 ^ 20) * 100 + 1 / 2 = 66511 / 131072 by norm_num]
    rw [show ⌊(66511 : ℚ) / 131072⌋ = 0 from by
      rw [Int.floor_eq_iff]
      norm_num]
    norm_num
  rw [hfmt]
  unfold return_val
  rw [if_pos]
  · rfl
  · refine ⟨?_, rfl⟩
    rw [hmapsz]
    norm_num

/-- C3 witness: at a plain leaf and the default cutoff, the total is
the naive size and there is no breakdown. -/
theorem claim_C3_size_tree_cutoff_witness :
    (size_tree (Val.int 5) (1 / 10)).total = naive_size (Val.int 5)
    ∧ (size_tree (Val.int 5) (1 / 10)).breakdown = Option.none := by
  refine ⟨(claim_C3_size_tree_cutoff (Val.int 5) (1 / 10)).1, ?_⟩
  apply (claim_C3_size_tree_cutoff (Val.int 5) (1 / 10)).2.1.mpr
  left
  intro e he
  rw [show rawEntrySizes (Val.int 5) = [] from rfl] at he
  cases he

/-- A Python object as `all_vars` sees it: whether `__getstate__` is
defined (and its result), whether the object has a `__dict__` (its
contents), and the `__slots__` attributes with their values.
Functions that may mutate the object return the updated object
alongside their result (explicit state passing). -/
structure PyObj where
  hasGetstate : Bool
  getstate : List (String × Val)
  hasDict : Bool
  dict : List (String × Val)
  slots : List (String × Val)

/-- Python `dict.update`: existing keys keep their position and receive
the new value, new keys are appended in update order. -/
def dictUpdate (d upd : List (String × Val)) : List (String × Val) :=
  d.map (fun kv =>
    match upd.find? (fun kv2 => kv2.1 == kv.1) with
    | Option.some kv2 => (kv.1, kv2.2)
    | Option.none => kv)
  ++ upd.filter (fun kv2 => (d.find? (fun kv => kv.1 == kv2.1)).isNone)

/-- `all_vars(obj)`: if the object has a `__getstate__`, return its
state; otherwise `attrs = getattr(obj, "__dict__", {})` — the LIVE
instance dict when the object has one, else a fresh `{}` — then
`attrs.update({key: getattr(obj, key) for key in __slots__})`.  When
the object has a `__dict__`, the update writes through the alias into
the object itself; the returned pair is (result dict, object after the
call). -/
def all_vars (obj : PyObj) : List (String × Val) × PyObj :=
  if obj.hasGetstate then (obj.getstate, obj)
  else if obj.hasDict then
    let attrs := dictUpdate obj.dict obj.slots
    (attrs, { obj with dict := attrs })
  else
    (dictUpdate [] obj.slots, obj)

/-- C4 (refuting evidence): `all_vars` is not read-only.  On an object
with an ordinary `__dict__` field `a = 1`, a declared slot `s = 2` and
no custom `__getstate__`, the call writes the slot entry into the
object's own `__dict__`: the object afterwards differs from the object
before. -/
theorem claim_C4_all_vars_mutates :
    (all_vars ⟨false, [], true, [("a", Val.int 1)], [("s", Val.int 2)]⟩).2.dict
      = [("a", Val.int 1), ("s", Val.int 2)]
    ∧ (all_vars ⟨false, [], true, [("a", Val.int 1)], [("s", Val.int 2)]⟩).2.dict
        ≠ (⟨false, [], true, [("a", Val.int 1)], [("s", Val.int 2)]⟩ : PyObj).dict := by
  constructor
  · rfl
  · intro h
    have hlen := congrArg List.length h
    simp [all_vars, dictUpdate] at hlen
